import Mathlib

/-!
Shallow embedding of `lambda/build.py`, a CLI that builds a Go Lambda
handler, packages it into a single-entry zip archive, uploads it to one or
more Lambda functions and waits for the updates to finish.

The script's externally visible behaviour is modelled as a trace of
effects (subprocess invocation, archive write, role assumption, code
upload, update wait, file deletion) together with a process exit code.
External collaborators (the filesystem, the `go build` subprocess and the
AWS API) are abstracted into a `World` record of oracles.  Strings are
Lean `String`s; the `os.path` helpers used by the script are re-implemented
faithfully on the underlying character lists.
-/

namespace BuildPy

/-- Characters of the literal ".zip". -/
def zipExt : List Char := ['.', 'z', 'i', 'p']

/-- Embedding of `os.path.basename` for POSIX paths: the part of the path
after the last slash. -/
def basenameL (cs : List Char) : List Char :=
  ((cs.reverse.takeWhile (fun c => c ≠ '/')).reverse)

/-- String wrapper for `basenameL`. -/
def basename (s : String) : String := ⟨basenameL s.data⟩

/-- Embedding of `str.endswith(suffix)`. -/
def strEndsWith (s suf : String) : Bool := suf.data.isSuffixOf s.data

/-- Embedding of the root part of `os.path.splitext` on a basename: drop
the extension that starts at the last dot, unless every character before
that dot is itself a dot (so `.zip` has no extension and is returned
unchanged, exactly as CPython does). -/
def splitextRootL (cs : List Char) : List Char :=
  match cs.reverse.findIdx? (fun c => c == '.') with
  | none => cs
  | some rj =>
    let i := cs.length - 1 - rj
    if (cs.take i).all (fun c => c == '.') then cs else cs.take i

/-- String wrapper for `splitextRootL`. -/
def splitextRoot (s : String) : String := ⟨splitextRootL s.data⟩

/-- Embedding of `os.path.join(a, b)` for POSIX paths. -/
def joinPath (a b : String) : String :=
  if b.data.head? = some '/' then b
  else if a.data = [] ∨ a.data.getLast? = some '/' then ⟨a.data ++ b.data⟩
  else ⟨a.data ++ '/' :: b.data⟩

/-- Credentials a boto3 client was constructed with: either the ambient
credential chain, or temporary credentials obtained by assuming a role. -/
inductive Cred where
  | ambient : Cred
  | assumed (roleArn : String) : Cred
deriving DecidableEq, Repr

/-- Externally visible effects of one invocation of the script, in order. -/
inductive Effect where
  /-- `subprocess.run` of the given `go build` command line. -/
  | buildCmd (cmd : List String) : Effect
  /-- `zipfile.ZipFile(path, 'w')` producing the given entries, each an
  entry name paired with its uncompressed bytes. -/
  | writeArchive (path : String) (entries : List (String × List Nat)) : Effect
  /-- `sts.assume_role` on the given role ARN. -/
  | assumeRole (roleArn : String) : Effect
  /-- `client.update_function_code` issued with credentials `cred` for
  function `fn`, uploading the bytes of the file at `file`. -/
  | upload (cred : Cred) (fn : String) (file : String) : Effect
  /-- `function_updated_v2` waiter polled with credentials `cred` for
  function `fn`. -/
  | wait (cred : Cred) (fn : String) : Effect
  /-- `os.remove(path)`. -/
  | deleteFile (path : String) : Effect
deriving DecidableEq, Repr

/-- Abstraction of everything outside the process: which files exist, what
bytes a file holds, the exit code of the `go build` subprocess, and whether
each per-function API call succeeds (an API exception propagates uncaught
and kills the process). -/
structure World where
  fexists : String → Bool
  bytes : String → List Nat
  goBuildExit : Nat
  uploadOk : String → Bool
  waitOk : String → Bool

/-- Parsed command-line arguments of `build.py` (the `args` namespace). -/
structure Args where
  roleArn : Option String
  build : Bool
  update : Bool
  functions : List String
  delete : Bool
  tags : Option String
  binDir : String
  mainPackage : String

/-- Embedding of lines 65-67 of `main`: the target list defaults to the
splitext root of the positional argument's basename when no `-f` was
given. -/
def derivedFunctions (args : Args) : List String :=
  if args.functions = [] then [splitextRoot (basename args.mainPackage)] else args.functions

/-- Command line built for `go build`: the `-tags` pair is present exactly
when `args.tags` is truthy in Python, i.e. a non-empty string. -/
def goBuildCmd (tags : Option String) (output mainPackage : String) : List String :=
  ["go", "build"] ++
    (match tags with
     | some t => if t = "" then [] else ["-tags", t]
     | none => []) ++
    ["-o", output, mainPackage]

/-- First loop of `update_and_wait`: upload the archive to each function in
list order; an API exception stops the loop (the failing call is still
issued). Returns the effects and whether every call succeeded. -/
def uploadLoop (cred : Cred) (file : String) (w : World) : List String → List Effect × Bool
  | [] => ([], true)
  | f :: fs =>
    if w.uploadOk f then
      let r := uploadLoop cred file w fs
      (Effect.upload cred f file :: r.1, r.2)
    else ([Effect.upload cred f file], false)

/-- Second loop of `update_and_wait`: wait on each function in list order;
an API exception stops the loop. -/
def waitLoop (cred : Cred) (w : World) : List String → List Effect × Bool
  | [] => ([], true)
  | f :: fs =>
    if w.waitOk f then
      let r := waitLoop cred w fs
      (Effect.wait cred f :: r.1, r.2)
    else ([Effect.wait cred f], false)

/-- Credentials the boto3 Lambda client of `update_and_wait` is built
with, as a function of the `role_arn` parameter. -/
def credOf (roleArn : Option String) : Cred :=
  match roleArn with
  | some arn => Cred.assumed arn
  | none => Cred.ambient

/-- Effects of the client construction in `update_and_wait`: one
`sts.assume_role` call when a role ARN is passed, nothing otherwise. -/
def credPre (roleArn : Option String) : List Effect :=
  match roleArn with
  | some arn => [Effect.assumeRole arn]
  | none => []

/-- Embedding of `update_and_wait(functions, file, role_arn)`: build one
client (with assumed-role credentials when a role ARN is passed, ambient
credentials otherwise), upload to every function, then wait on every
function. Returns the effect trace and whether it ran to completion. -/
def updateAndWaitW (fns : List String) (file : String) (roleArn : Option String)
    (w : World) : List Effect × Bool :=
  let u := uploadLoop (credOf roleArn) file w fns
  if u.2 then
    let v := waitLoop (credOf roleArn) w fns
    (credPre roleArn ++ u.1 ++ v.1, v.2)
  else (credPre roleArn ++ u.1, false)

/-- Embedding of the non-archive part of `main` (lines 79-111): the
implied `-bu` default, the build-if-missing rule (`b2` is the final value
of the `build` variable, equivalent to the source's two sequential
reassignments), the build phase with its fatal exit, the packaging of the
binary as the single entry `bootstrap`, the update phase with
`args.role_arn` (line 106), and the conditional deletion of the binary. -/
def runBuildUpdate (args : Args) (w : World) : List Effect × Nat :=
  let packageName := basename args.mainPackage
  let b1 := args.build || (!args.build && !args.update)
  let u1 := args.update || (!args.build && !args.update)
  let output := joinPath args.binDir packageName
  let b2 := b1 || !w.fexists output
  let buildEffects := if b2 then [Effect.buildCmd (goBuildCmd args.tags output args.mainPackage)] else []
  if b2 && !(w.goBuildExit == 0) then (buildEffects, 1)
  else if u1 then
    let archive := joinPath args.binDir (packageName ++ ".zip")
    let r := updateAndWaitW (derivedFunctions args) archive args.roleArn w
    let base := buildEffects ++ Effect.writeArchive archive [("bootstrap", w.bytes output)] :: r.1
    if r.2 then
      (base ++ (if args.delete && b2 then [Effect.deleteFile output] else []), 0)
    else (base, 1)
  else (buildEffects, 0)

/-- Embedding of `main` after argument parsing: returns the effect trace
and the process exit code. The `.zip` branch (lines 72-78) calls
`update_and_wait` without the role ARN (line 77); otherwise the
build/update phases run. An uncaught exception from the AWS API exits the
process nonzero (modelled as exit code 1). -/
def runMain (args : Args) (w : World) : List Effect × Nat :=
  if strEndsWith (basename args.mainPackage) ".zip" then
    if args.build then ([], 1)
    else
      let r := updateAndWaitW (derivedFunctions args) args.mainPackage none w
      (r.1, if r.2 then 0 else 1)
  else runBuildUpdate args w

/-! Environment handling. `-e`/`--load-dotenv` are argparse actions whose
side effects on `os.environ` happen during parsing, in command-line order.
The environment is an association list where the first binding for a key
wins. -/

/-- Process environment lookup (first binding wins). -/
def envLookup (env : List (String × String)) (k : String) : Option String :=
  (env.find? (fun p => p.1 == k)).map (fun p => p.2)

/-- Embedding of `values.partition("=")` as used by `EnvVarAction`: the
key is everything before the first `=`, the value everything after it
(empty when there is no `=`). -/
def partitionEq (s : String) : String × String :=
  (⟨s.data.takeWhile (fun c => c ≠ '=')⟩, ⟨(s.data.dropWhile (fun c => c ≠ '=')).drop 1⟩)

/-- Embedding of `load_dotenv(dotenv_path=value)` with its default
`override=False`: each binding of the file is added only when the key is
not already present in the environment. -/
def loadDotenvFile (env : List (String × String)) : List (String × String) → List (String × String)
  | [] => env
  | p :: ps => loadDotenvFile (if (envLookup env p.1).isSome then env else (p.1, p.2) :: env) ps

/-- Environment-affecting options in the order they appear on the command
line. A `loadDotenv` carries the parsed content of the dotenv file. -/
inductive EnvOpt where
  | envVar (s : String) : EnvOpt
  | loadDotenv (file : List (String × String)) : EnvOpt

/-- One argparse action: `EnvVarAction.__call__` (raises `ValueError` on a
missing value, otherwise sets `os.environ[key] = value`) or
`LoadDotEnvAction.__call__`. -/
def applyEnvOpt (env : List (String × String)) : EnvOpt → Except String (List (String × String))
  | EnvOpt.envVar s =>
    let kv := partitionEq s
    if kv.2 = "" then Except.error s else Except.ok ((kv.1, kv.2) :: env)
  | EnvOpt.loadDotenv file => Except.ok (loadDotenvFile env file)

/-- Run the parse-time actions left to right; a raised `ValueError` aborts
parsing (the process then exits nonzero), but the mutations already made
to `os.environ` persist. Returns the environment reached and whether
parsing succeeded. -/
def processOpts (env : List (String × String)) : List EnvOpt → List (String × String) × Bool
  | [] => (env, true)
  | o :: os =>
    match applyEnvOpt env o with
    | Except.ok e => processOpts e os
    | Except.error _ => (env, false)

/-- Option strings registered on the `argparse.ArgumentParser` in `main`,
plus the automatic help flags. -/
def optionStrings : List String :=
  ["-h", "--help", "--assume-role", "-b", "--build", "-u", "--update",
   "-f", "--function", "-d", "--delete", "--load-dotenv", "-e", "--env-var",
   "--tags", "--bin-dir"]

/-- Whether the parser accepts a given option token: an exact match, or
(argparse's default `allow_abbrev`) an unambiguous abbreviation of exactly
one long option. -/
def acceptsOption (s : String) : Bool :=
  optionStrings.contains s ||
    (("--".data.isPrefixOf s.data) &&
      (optionStrings.filter (fun o => "--".data.isPrefixOf o.data && s.data.isPrefixOf o.data)).length == 1)

/-- An external world in which no file pre-exists, `go build` succeeds,
every file holds the bytes `[1, 2, 3]` and every API call succeeds. -/
def worldOK : World :=
  ⟨fun _ => false, fun _ => [1, 2, 3], 0, fun _ => true, fun _ => true⟩

/-! Lemmas about the environment model. -/

theorem envLookup_cons (a b k : String) (env : List (String × String)) :
    envLookup ((a, b) :: env) k = if a == k then some b else envLookup env k := by
  cases h : a == k <;> simp [envLookup, List.find?_cons, h]

theorem envLookup_loadDotenvFile (file : List (String × String)) :
    ∀ env k v, envLookup env k = some v → envLookup (loadDotenvFile env file) k = some v := by
  induction file with
  | nil => intro env k v h; exact h
  | cons p ps ih =>
    intro env k v h
    show envLookup (loadDotenvFile (if (envLookup env p.1).isSome then env else (p.1, p.2) :: env) ps) k = some v
    by_cases hp : (envLookup env p.1).isSome
    · simpa [hp] using ih env k v h
    · have hne : (p.1 == k) = false := by
        cases hpk : p.1 == k
        · rfl
        · exfalso
          have : p.1 = k := by simpa using hpk
          rw [this, h] at hp
          simp at hp
      have : envLookup ((p.1, p.2) :: env) k = some v := by
        rw [envLookup_cons, hne]
        simpa using h
      simpa [hp] using ih _ k v this

/-- Claim C2, counterexample: the parser built in `main` registers no
`--load-dotenv-override` option string, and the token is not an
abbreviation of any registered long option either (it strictly extends
`--load-dotenv`), so the CLI rejects `--load-dotenv-override` as an
unrecognized argument. -/
theorem c2_no_load_dotenv_override_flag :
    acceptsOption "--load-dotenv-override" = false := by decide

/-- Claim C2, amended: the CLI accepts a single dotenv flag,
`--load-dotenv`, and its loading never overrides an already-set
environment variable (`load_dotenv` is called with its default
`override=False`); no overriding variant exists. -/
theorem c2_only_load_dotenv_non_overriding :
    acceptsOption "--load-dotenv" = true ∧
      ∀ (env file : List (String × String)) (k v : String),
        envLookup env k = some v → envLookup (loadDotenvFile env file) k = some v := by
  refine ⟨by decide, ?_⟩
  intro env file k v h
  exact envLookup_loadDotenvFile file env k v h

/-- Claim C2, witness for the amended theorem: `--load-dotenv` is
accepted, and loading a file that redefines `A` leaves the pre-existing
binding `A=1` in place. -/
theorem c2_only_load_dotenv_non_overriding_witness :
    acceptsOption "--load-dotenv" = true ∧
      envLookup (loadDotenvFile [("A", "1")] [("A", "2"), ("B", "3")]) "A" = some "1" :=
  ⟨c2_only_load_dotenv_non_overriding.1,
   c2_only_load_dotenv_non_overriding.2 [("A", "1")] [("A", "2"), ("B", "3")] "A" "1" (by decide)⟩

theorem processOpts_cons_ok {env e : List (String × String)} {o : EnvOpt}
    {os : List EnvOpt} (h : applyEnvOpt env o = Except.ok e) :
    processOpts env (o :: os) = processOpts e os := by
  simp [processOpts, h]

theorem applyEnvOpt_envVar_ok {env : List (String × String)} {s K v : String}
    (hparse : partitionEq s = (K, v)) (hv : v ≠ "") :
    applyEnvOpt env (EnvOpt.envVar s) = Except.ok ((K, v) :: env) := by
  simp [applyEnvOpt, hparse, hv]

/-- Claim C5: when a well-formed `-e` override for key `K` appears on the
command line together with a `--load-dotenv` that also defines `K`, the
final environment maps `K` to the `-e` value, whichever of the two options
comes first: `-e` writes `os.environ` directly, while `load_dotenv` runs
with `override=False` and never replaces an existing binding. -/
theorem c5_env_flag_overrides_dotenv (env file : List (String × String))
    (s K v v' : String) (hparse : partitionEq s = (K, v)) (hv : v ≠ "")
    (hfile : (K, v') ∈ file) :
    envLookup (processOpts env [EnvOpt.envVar s, EnvOpt.loadDotenv file]).1 K = some v ∧
    envLookup (processOpts env [EnvOpt.loadDotenv file, EnvOpt.envVar s]).1 K = some v := by
  constructor
  · rw [processOpts_cons_ok (applyEnvOpt_envVar_ok hparse hv),
      processOpts_cons_ok (show applyEnvOpt ((K, v) :: env) (EnvOpt.loadDotenv file) =
        Except.ok (loadDotenvFile ((K, v) :: env) file) from rfl)]
    simp only [processOpts]
    refine envLookup_loadDotenvFile file ((K, v) :: env) K v ?_
    simp [envLookup_cons]
  · rw [processOpts_cons_ok (show applyEnvOpt env (EnvOpt.loadDotenv file) =
        Except.ok (loadDotenvFile env file) from rfl),
      processOpts_cons_ok (applyEnvOpt_envVar_ok hparse hv)]
    simp only [processOpts]
    simp [envLookup_cons]

/-- Claim C5, witness: with an empty starting environment, `-e K=new`
together with a dotenv file defining `K=old` yields `K=new` in either
order. -/
theorem c5_env_flag_overrides_dotenv_witness :
    envLookup (processOpts [] [EnvOpt.envVar "K=new", EnvOpt.loadDotenv [("K", "old")]]).1 "K" = some "new" ∧
    envLookup (processOpts [] [EnvOpt.loadDotenv [("K", "old")], EnvOpt.envVar "K=new"]).1 "K" = some "new" :=
  c5_env_flag_overrides_dotenv [] [("K", "old")] "K=new" "K" "new" "old"
    (by decide) (by decide) (by decide)

/-- Claim C7, counterexample: the invocation `-e A=1 -e BAD ...` fails
with a usage error (the malformed override `BAD` raises `ValueError`
during parsing), yet the process environment has already been mutated by
the earlier well-formed override: `A=1` is set when the error is raised.
So a usage error does not exit before every side effect. -/
theorem c7_env_mutation_before_usage_error :
    (processOpts [] [EnvOpt.envVar "A=1", EnvOpt.envVar "BAD"]).2 = false ∧
    envLookup (processOpts [] [EnvOpt.envVar "A=1", EnvOpt.envVar "BAD"]).1 "A" = some "1" := by
  decide

/-- Claim C7, amended: a malformed `key=value` override aborts argument
parsing at once — no later option is processed, the environment is left
exactly as the options before it had set it, and the process exits
nonzero. This happens before any file write, subprocess or API call (those
occur only after parsing), but mutations of the process environment made
by options parsed earlier persist, and the illegal archive-plus-build
combination is detected only after parsing completes. -/
theorem c7_usage_error_stops_parsing (env : List (String × String)) (s : String)
    (opts : List EnvOpt) (h : (partitionEq s).2 = "") :
    processOpts env (EnvOpt.envVar s :: opts) = (env, false) := by
  simp [processOpts, applyEnvOpt, h]

/-- Claim C7, witness for the amended theorem: the malformed override
`BAD` halts parsing with the environment still `[("X", "0")]`, even though
another option follows it. -/
theorem c7_usage_error_stops_parsing_witness :
    processOpts [("X", "0")] [EnvOpt.envVar "BAD", EnvOpt.envVar "A=1"] = ([("X", "0")], false) :=
  c7_usage_error_stops_parsing [("X", "0")] "BAD" [EnvOpt.envVar "A=1"] (by decide)

/-! Lemmas about the traces of `update_and_wait`. -/

theorem uploadLoop_of_ok (cred : Cred) (file : String) (w : World) :
    ∀ fns : List String, (∀ f ∈ fns, w.uploadOk f = true) →
      uploadLoop cred file w fns = (fns.map (fun f => Effect.upload cred f file), true) := by
  intro fns
  induction fns with
  | nil => intro _; rfl
  | cons f fs ih =>
    intro h
    have hf : w.uploadOk f = true := h f (by simp)
    have hfs : ∀ g ∈ fs, w.uploadOk g = true := fun g hg => h g (by simp [hg])
    simp [uploadLoop, hf, ih hfs]

theorem waitLoop_of_ok (cred : Cred) (w : World) :
    ∀ fns : List String, (∀ f ∈ fns, w.waitOk f = true) →
      waitLoop cred w fns = (fns.map (fun f => Effect.wait cred f), true) := by
  intro fns
  induction fns with
  | nil => intro _; rfl
  | cons f fs ih =>
    intro h
    have hf : w.waitOk f = true := h f (by simp)
    have hfs : ∀ g ∈ fs, w.waitOk g = true := fun g hg => h g (by simp [hg])
    simp [waitLoop, hf, ih hfs]

theorem uploadLoop_effects (cred : Cred) (file : String) (w : World) :
    ∀ (fns : List String) (e : Effect), e ∈ (uploadLoop cred file w fns).1 →
      ∃ f, f ∈ fns ∧ e = Effect.upload cred f file := by
  intro fns
  induction fns with
  | nil => intro e he; simp [uploadLoop] at he
  | cons f fs ih =>
    intro e he
    cases hf : w.uploadOk f with
    | true =>
      simp only [uploadLoop, hf, if_pos] at he
      rcases List.mem_cons.mp he with h | h
      · exact ⟨f, by simp, h⟩
      · obtain ⟨g, hg, hge⟩ := ih e h
        exact ⟨g, by simp [hg], hge⟩
    | false =>
      simp [uploadLoop, hf] at he
      exact ⟨f, by simp, he⟩

theorem waitLoop_effects (cred : Cred) (w : World) :
    ∀ (fns : List String) (e : Effect), e ∈ (waitLoop cred w fns).1 →
      ∃ f, f ∈ fns ∧ e = Effect.wait cred f := by
  intro fns
  induction fns with
  | nil => intro e he; simp [waitLoop] at he
  | cons f fs ih =>
    intro e he
    cases hf : w.waitOk f with
    | true =>
      simp only [waitLoop, hf, if_pos] at he
      rcases List.mem_cons.mp he with h | h
      · exact ⟨f, by simp, h⟩
      · obtain ⟨g, hg, hge⟩ := ih e h
        exact ⟨g, by simp [hg], hge⟩
    | false =>
      simp [waitLoop, hf] at he
      exact ⟨f, by simp, he⟩

theorem updateAndWaitW_effects (fns : List String) (file : String)
    (roleArn : Option String) (w : World) (e : Effect)
    (h : e ∈ (updateAndWaitW fns file roleArn w).1) :
    (∃ a, e = Effect.assumeRole a) ∨
    (∃ f, f ∈ fns ∧ e = Effect.upload (credOf roleArn) f file) ∨
    (∃ f, f ∈ fns ∧ e = Effect.wait (credOf roleArn) f) := by
  have hpre : ∀ e, e ∈ credPre roleArn → ∃ a, e = Effect.assumeRole a := by
    intro e he
    cases roleArn with
    | none => simp [credPre] at he
    | some arn => simp [credPre] at he; exact ⟨arn, he⟩
  by_cases hu : (uploadLoop (credOf roleArn) file w fns).2 = true
  · simp only [updateAndWaitW, hu, if_pos] at h
    rcases List.mem_append.mp h with h | h
    · rcases List.mem_append.mp h with h | h
      · exact Or.inl (hpre e h)
      · exact Or.inr (Or.inl (uploadLoop_effects _ _ _ _ _ h))
    · exact Or.inr (Or.inr (waitLoop_effects _ _ _ _ h))
  · simp only [updateAndWaitW, hu, if_neg, Bool.not_eq_true] at h
    rcases List.mem_append.mp h with h | h
    · exact Or.inl (hpre e h)
    · exact Or.inr (Or.inl (uploadLoop_effects _ _ _ _ _ h))

theorem upload_mem_uploadLoop (cred : Cred) (file : String) (w : World)
    (f : String) (fs : List String) :
    Effect.upload cred f file ∈ (uploadLoop cred file w (f :: fs)).1 := by
  by_cases hf : w.uploadOk f = true <;> simp [uploadLoop, hf]

theorem upload_mem_updateAndWaitW (file : String) (roleArn : Option String)
    (w : World) (f : String) (fs : List String) :
    Effect.upload (credOf roleArn) f file ∈ (updateAndWaitW (f :: fs) file roleArn w).1 := by
  have hm := upload_mem_uploadLoop (credOf roleArn) file w f fs
  by_cases hu : (uploadLoop (credOf roleArn) file w (f :: fs)).2 = true
  · simp only [updateAndWaitW, hu, if_pos]
    exact List.mem_append.mpr (Or.inl (List.mem_append.mpr (Or.inr hm)))
  · simp only [updateAndWaitW, hu, if_neg, Bool.not_eq_true]
    exact List.mem_append.mpr (Or.inr hm)

/-- Claim C6: an archive positional argument combined with the build flag
makes `main` print and exit with code 1 before any build, packaging,
upload or wait: the effect trace is empty. -/
theorem c6_archive_plus_build_exits_1 (args : Args) (w : World)
    (h1 : strEndsWith (basename args.mainPackage) ".zip" = true)
    (h2 : args.build = true) :
    runMain args w = ([], 1) := by
  simp [runMain, h1, h2]

/-- Claim C6, witness: `build.py -b fn.zip` exits 1 with no effects. -/
theorem c6_archive_plus_build_exits_1_witness :
    runMain ⟨none, true, false, [], false, some "lambda.norpc", "./bin/", "fn.zip"⟩ worldOK = ([], 1) :=
  c6_archive_plus_build_exits_1
    ⟨none, true, false, [], false, some "lambda.norpc", "./bin/", "fn.zip"⟩ worldOK
    (by decide) rfl

/-- Claim C9: with only the update flag, a non-archive positional
argument and no file at the computed output path, `main` behaves exactly
as if the build flag had been given as well, and in particular the
compiler is invoked. -/
theorem c9_update_only_missing_binary_implies_build (args : Args) (w : World)
    (hb : args.build = false) (hu : args.update = true)
    (hz : strEndsWith (basename args.mainPackage) ".zip" = false)
    (hex : w.fexists (joinPath args.binDir (basename args.mainPackage)) = false) :
    runMain args w = runMain { args with build := true } w ∧
      ∃ c, Effect.buildCmd c ∈ (runMain args w).1 := by
  constructor
  · simp [runMain, runBuildUpdate, derivedFunctions, hz, hb, hu, hex]
  · refine ⟨goBuildCmd args.tags (joinPath args.binDir (basename args.mainPackage))
      args.mainPackage, ?_⟩
    simp only [runMain, runBuildUpdate, hz, Bool.false_eq_true, if_neg, hb, hu, hex]
    simp only [Bool.false_and, Bool.or_false, Bool.not_false, Bool.false_or, Bool.not_true,
      Bool.and_false, Bool.true_and, Bool.or_true, Bool.true_or, if_true]
    split
    · simp_all
    · split <;> simp
      split <;> simp

/-- Claim C9, witness: `build.py -u cmd/app` with no file at
`./bin/app` runs the build phase. -/
theorem c9_update_only_missing_binary_implies_build_witness :
    runMain ⟨none, false, true, [], false, some "lambda.norpc", "./bin/", "cmd/app"⟩ worldOK =
      runMain ⟨none, true, true, [], false, some "lambda.norpc", "./bin/", "cmd/app"⟩ worldOK ∧
    ∃ c, Effect.buildCmd c ∈
      (runMain ⟨none, false, true, [], false, some "lambda.norpc", "./bin/", "cmd/app"⟩ worldOK).1 :=
  c9_update_only_missing_binary_implies_build
    ⟨none, false, true, [], false, some "lambda.norpc", "./bin/", "cmd/app"⟩ worldOK
    rfl rfl (by decide) rfl

/-- Arguments of the C1 failing invocation:
`build.py --assume-role arn:aws:iam::123456789012:role/my-role fn.zip`. -/
def c1Args : Args :=
  ⟨some "arn:aws:iam::123456789012:role/my-role", false, false, [], false,
   some "lambda.norpc", "./bin/", "fn.zip"⟩

/-- Claim C1, divergence of the code from the claim (and from the
`--assume-role` help text): when the positional argument is a `.zip`
archive, line 77 of `main` calls `update_and_wait` without passing
`args.role_arn`, so the upload and wait calls run with ambient
credentials and no role-assumption call is ever made, even though
`--assume-role` was supplied. -/
theorem c1_assume_role_dropped_for_archive :
    runMain c1Args worldOK =
      ([Effect.upload Cred.ambient "fn" "fn.zip", Effect.wait Cred.ambient "fn"], 0) ∧
    Effect.assumeRole "arn:aws:iam::123456789012:role/my-role" ∉ (runMain c1Args worldOK).1 := by
  decide

/-- Claim C8: when every API call succeeds, `update_and_wait` issues the
code-upload calls strictly in list order for all targets, then — only
after the last upload — polls the waiters strictly in the same list
order, and reports success (the process then exits 0) only after every
target's wait has completed. -/
theorem c8_uploads_then_waits_in_order (fns : List String) (file : String)
    (roleArn : Option String) (w : World)
    (hu : ∀ f ∈ fns, w.uploadOk f = true) (hw : ∀ f ∈ fns, w.waitOk f = true) :
    updateAndWaitW fns file roleArn w =
      (credPre roleArn ++ fns.map (fun f => Effect.upload (credOf roleArn) f file)
        ++ fns.map (fun f => Effect.wait (credOf roleArn) f), true) := by
  simp [updateAndWaitW, uploadLoop_of_ok (credOf roleArn) file w fns hu,
    waitLoop_of_ok (credOf roleArn) w fns hw]

/-- Claim C8, witness: `-f a -f b` with an assumed role uploads to `a`
then `b`, then waits on `a` then `b`, and succeeds. -/
theorem c8_uploads_then_waits_in_order_witness :
    updateAndWaitW ["a", "b"] "p.zip" (some "r") worldOK =
      ([Effect.assumeRole "r",
        Effect.upload (Cred.assumed "r") "a" "p.zip",
        Effect.upload (Cred.assumed "r") "b" "p.zip",
        Effect.wait (Cred.assumed "r") "a",
        Effect.wait (Cred.assumed "r") "b"], true) :=
  c8_uploads_then_waits_in_order ["a", "b"] "p.zip" (some "r") worldOK
    (by decide) (by decide)

/-- Claim C4: every archive the script writes is written to
`<bin-dir>/<package-name>.zip` and contains exactly one entry, named
`bootstrap` regardless of the binary's name, whose uncompressed bytes are
the bytes of the file at `<bin-dir>/<package-name>`. -/
theorem c4_archive_single_bootstrap_entry (args : Args) (w : World)
    (p : String) (es : List (String × List Nat))
    (h : Effect.writeArchive p es ∈ (runMain args w).1) :
    p = joinPath args.binDir (basename args.mainPackage ++ ".zip") ∧
    es = [("bootstrap", w.bytes (joinPath args.binDir (basename args.mainPackage)))] := by
  simp only [runMain] at h
  split at h
  · split at h
    · simp at h
    · rcases updateAndWaitW_effects _ _ _ _ _ h with ⟨a, ha⟩ | ⟨f, _, hf⟩ | ⟨f, _, hf⟩ <;>
        simp_all
  · simp only [runBuildUpdate] at h
    split at h
    · split at h <;> simp_all
    · split at h
      · split at h <;>
        · simp at h
          rcases h with h | h
          · exact h
          · rcases updateAndWaitW_effects _ _ _ _ _ h with
              ⟨a, ha⟩ | ⟨f, _, hf⟩ | ⟨f, _, hf⟩ <;> simp_all
      · split at h <;> simp_all

/-- Claim C4, witness: the default invocation on `cmd/app` writes
`./bin/app.zip` holding the single entry `bootstrap` with the binary's
bytes. -/
theorem c4_archive_single_bootstrap_entry_witness :
    Effect.writeArchive "./bin/app.zip" [("bootstrap", [1, 2, 3])] ∈
      (runMain ⟨none, false, false, [], false, some "lambda.norpc", "./bin/", "cmd/app"⟩ worldOK).1 ∧
    ("./bin/app.zip" = joinPath "./bin/"
        (basename "cmd/app" ++ ".zip") ∧
      [("bootstrap", [1, 2, 3])] =
        [("bootstrap", worldOK.bytes (joinPath "./bin/" (basename "cmd/app")))]) :=
  ⟨by decide,
   c4_archive_single_bootstrap_entry
     ⟨none, false, false, [], false, some "lambda.norpc", "./bin/", "cmd/app"⟩ worldOK
     "./bin/app.zip" [("bootstrap", [1, 2, 3])] (by decide)⟩

theorem deleteFile_not_mem_updateAndWaitW (fns : List String) (file : String)
    (roleArn : Option String) (w : World) (q : String) :
    Effect.deleteFile q ∉ (updateAndWaitW fns file roleArn w).1 := by
  intro h
  rcases updateAndWaitW_effects _ _ _ _ _ h with ⟨a, ha⟩ | ⟨f, _, hf⟩ | ⟨f, _, hf⟩ <;> simp_all

theorem buildCmd_not_mem_updateAndWaitW (fns : List String) (file : String)
    (roleArn : Option String) (w : World) (c : List String) :
    Effect.buildCmd c ∉ (updateAndWaitW fns file roleArn w).1 := by
  intro h
  rcases updateAndWaitW_effects _ _ _ _ _ h with ⟨a, ha⟩ | ⟨f, _, hf⟩ | ⟨f, _, hf⟩ <;> simp_all

theorem derivedFunctions_ne_nil (args : Args) : derivedFunctions args ≠ [] := by
  unfold derivedFunctions
  split
  · simp
  · assumption

theorem exists_upload_mem_updateAndWaitW (fns : List String) (file : String)
    (roleArn : Option String) (w : World) (h : fns ≠ []) :
    ∃ cred f, Effect.upload cred f file ∈ (updateAndWaitW fns file roleArn w).1 := by
  cases fns with
  | nil => exact absurd rfl h
  | cons f fs => exact ⟨credOf roleArn, f, upload_mem_updateAndWaitW file roleArn w f fs⟩

/-- Claim C3: given the delete flag, the uncompressed binary at
`<bin-dir>/<package-name>` is removed exactly when this invocation's build
phase actually ran (a compiler call appears in the trace), the process
ended successfully (exit 0) and the update phase ran (a code upload
appears in the trace); in particular a pre-existing binary that this
invocation did not build is never removed. -/
theorem c3_delete_iff_built_and_updated (args : Args) (w : World)
    (hd : args.delete = true) :
    Effect.deleteFile (joinPath args.binDir (basename args.mainPackage)) ∈ (runMain args w).1 ↔
      ((∃ c, Effect.buildCmd c ∈ (runMain args w).1) ∧ (runMain args w).2 = 0 ∧
        ∃ cred f fl, Effect.upload cred f fl ∈ (runMain args w).1) := by
  have hne := derivedFunctions_ne_nil args
  simp only [runMain, runBuildUpdate, hd, Bool.true_and]
  split
  · split
    · simp
    · have h1 : Effect.deleteFile (joinPath args.binDir (basename args.mainPackage)) ∉
          (updateAndWaitW (derivedFunctions args) args.mainPackage none w).1 :=
        deleteFile_not_mem_updateAndWaitW _ _ _ _ _
      have h2 : ∀ c, Effect.buildCmd c ∉
          (updateAndWaitW (derivedFunctions args) args.mainPackage none w).1 :=
        fun c => buildCmd_not_mem_updateAndWaitW _ _ _ _ _
      simp [h1, h2]
  · split
    · split <;> simp
    · split
      · have h1 : Effect.deleteFile (joinPath args.binDir (basename args.mainPackage)) ∉
            (updateAndWaitW (derivedFunctions args)
              (joinPath args.binDir (basename args.mainPackage ++ ".zip")) args.roleArn w).1 :=
          deleteFile_not_mem_updateAndWaitW _ _ _ _ _
        have h2 : ∀ c, Effect.buildCmd c ∉
            (updateAndWaitW (derivedFunctions args)
              (joinPath args.binDir (basename args.mainPackage ++ ".zip")) args.roleArn w).1 :=
          fun c => buildCmd_not_mem_updateAndWaitW _ _ _ _ _
        obtain ⟨cred, f, hup⟩ := exists_upload_mem_updateAndWaitW (derivedFunctions args)
          (joinPath args.binDir (basename args.mainPackage ++ ".zip")) args.roleArn w hne
        split
        · split
          · constructor
            · intro _
              refine ⟨⟨goBuildCmd args.tags (joinPath args.binDir (basename args.mainPackage))
                  args.mainPackage, by simp⟩, rfl, cred, f,
                joinPath args.binDir (basename args.mainPackage ++ ".zip"), ?_⟩
              simp [hup]
            · intro _
              simp
          · simp [h1, h2]
        · split <;> simp [h1, h2]
      · split <;> simp

/-- Claim C3, witness: the default build-and-update invocation with the
delete flag on `cmd/app`, in a world where everything succeeds. -/
theorem c3_delete_iff_built_and_updated_witness :
    Effect.deleteFile (joinPath "./bin/" (basename "cmd/app")) ∈
      (runMain ⟨none, false, false, [], true, some "lambda.norpc", "./bin/", "cmd/app"⟩ worldOK).1 ↔
      ((∃ c, Effect.buildCmd c ∈
          (runMain ⟨none, false, false, [], true, some "lambda.norpc", "./bin/", "cmd/app"⟩ worldOK).1) ∧
        (runMain ⟨none, false, false, [], true, some "lambda.norpc", "./bin/", "cmd/app"⟩ worldOK).2 = 0 ∧
        ∃ cred f fl, Effect.upload cred f fl ∈
          (runMain ⟨none, false, false, [], true, some "lambda.norpc", "./bin/", "cmd/app"⟩ worldOK).1) :=
  c3_delete_iff_built_and_updated
    ⟨none, false, false, [], true, some "lambda.norpc", "./bin/", "cmd/app"⟩ worldOK rfl

/-! Lemmas about `os.path.splitext` on basenames ending in `.zip`. -/

theorem findIdx_dot_aux (l : List Char) :
    List.findIdx? (fun c => c == '.') ('p' :: 'i' :: 'z' :: '.' :: l) = some 3 := by
  have hp : (('p' : Char) == '.') = false := by decide
  have hi : (('i' : Char) == '.') = false := by decide
  have hz : (('z' : Char) == '.') = false := by decide
  have hd : (('.' : Char) == '.') = true := by decide
  simp [List.findIdx?_cons, hp, hi, hz, hd]

theorem splitextRootL_strip (t : List Char) (h : t.all (fun c => c == '.') = false) :
    splitextRootL (t ++ zipExt) = t := by
  have hrev : (t ++ zipExt).reverse = 'p' :: 'i' :: 'z' :: '.' :: t.reverse := by
    simp [zipExt]
  have hlen : (t ++ zipExt).length - 1 - 3 = t.length := by
    simp [zipExt]
  simp only [splitextRootL, hrev, findIdx_dot_aux, hlen, List.take_left, h]
  simp

theorem strEndsWith_of_data_append (s : String) (t : List Char)
    (h : s.data = t ++ zipExt) : strEndsWith s ".zip" = true := by
  unfold strEndsWith
  rw [h, show (".zip" : String).data = zipExt from rfl]
  exact List.isSuffixOf_iff_suffix.mpr ⟨t, rfl⟩

/-- Arguments of the C10 counterexample: `build.py .zip` (the positional
argument is the dotfile named `.zip`). -/
def c10Args : Args :=
  ⟨none, false, false, [], false, some "lambda.norpc", "./bin/", ".zip"⟩

/-- Claim C10, counterexample: for the positional argument `.zip` — whose
basename ends in `.zip`, so the archive branch is taken — the claim says
the targeted function is the basename with its `.zip` extension stripped,
i.e. the empty string; but `os.path.splitext` treats a leading dot as part
of the file name, so the code targets the function named `.zip` itself,
not the empty string. -/
theorem c10_dotfile_zip_keeps_name :
    derivedFunctions c10Args = [".zip"] ∧
    Effect.upload Cred.ambient ".zip" ".zip" ∈ (runMain c10Args worldOK).1 ∧
    (".zip" : String) ≠ "" := by decide

/-- Claim C10, amended: for an archive positional argument with no `-f`
flags, the single targeted function is the archive's basename with its
`.zip` extension stripped, provided the characters before the `.zip`
suffix are not all dots (for a basename like `.zip` or `..zip`,
`os.path.splitext` finds no extension and the full basename is used as
the function name). -/
theorem c10_function_name_strips_zip (args : Args) (w : World) (t : List Char)
    (h1 : args.functions = [])
    (h2 : (basename args.mainPackage).data = t ++ zipExt)
    (h3 : t.all (fun c => c == '.') = false)
    (h4 : args.build = false) :
    derivedFunctions args = [String.mk t] ∧
    Effect.upload Cred.ambient (String.mk t) args.mainPackage ∈ (runMain args w).1 := by
  have hz : strEndsWith (basename args.mainPackage) ".zip" = true :=
    strEndsWith_of_data_append _ t h2
  have hsr : splitextRoot (basename args.mainPackage) = String.mk t := by
    unfold splitextRoot
    rw [h2, splitextRootL_strip t h3]
  have hdf : derivedFunctions args = [String.mk t] := by
    unfold derivedFunctions
    rw [if_pos h1, hsr]
  refine ⟨hdf, ?_⟩
  simp only [runMain, hz, h4, Bool.false_eq_true, if_neg, if_true, hdf]
  simpa using upload_mem_updateAndWaitW args.mainPackage none w (String.mk t) []

/-- Claim C10, witness for the amended theorem: `build.py foo.zip`
targets the single function `foo`. -/
theorem c10_function_name_strips_zip_witness :
    derivedFunctions ⟨none, false, false, [], false, some "lambda.norpc", "./bin/", "foo.zip"⟩ =
      [String.mk ['f', 'o', 'o']] ∧
    Effect.upload Cred.ambient (String.mk ['f', 'o', 'o']) "foo.zip" ∈
      (runMain ⟨none, false, false, [], false, some "lambda.norpc", "./bin/", "foo.zip"⟩ worldOK).1 :=
  c10_function_name_strips_zip
    ⟨none, false, false, [], false, some "lambda.norpc", "./bin/", "foo.zip"⟩ worldOK
    ['f', 'o', 'o'] rfl (by decide) (by decide) rfl

end BuildPy
